import Mathlib

/-! Shallow embedding of the TraceMyFlow workflow execution engine
(`flowtracer/workflow/services/workflow_executor.py`,
`flowtracer/workflow/services/sub-workflow-executor.py`,
`flowtracer/workflow/services/connectors/kafka_connector.py`) together with
the parts of the data model (`flowtracer/workflow/models.py`) they consume.

Modelling conventions:
* Django model rows become Lean structures; status fields keep their source
  string values.
* `timezone.now()` is modelled by an abstract monotone clock (a `Nat`
  threaded through the executor); only presence or absence of a timestamp is
  observable.
* `save()` persistence is modelled as the in-place record update being
  immediately visible; within one run the executor always operates on the
  one object it fetched, so this is observationally equivalent for the
  logic modelled here.
* The kafka / mq / db / api simulation methods perform external I/O; the
  outcome of one execution attempt is abstracted into an oracle (`Env`).
  The service simulation method's internal dispatch on `service_type`
  (`workflow_executor.py` lines 579-649, the later of the two definitions,
  which overrides the earlier one in the Python class body) is embedded,
  with the actual HTTP exchange abstracted into the oracle.
* `time.sleep` calls, execution attempts and backend calls are recorded as
  ghost traces so that theorems can speak about them; the text appended to
  the execution log by `_log` is not modelled since no claim refers to it.
* `RetryStrategy.backoff_factor` is a Python float; all delay arithmetic
  relevant to the claims stays on small integers where binary floating
  point is exact, so it is modelled by `ℚ`.
-/

namespace Tracemyflow

/-- One row of `workflow.models.WorkflowComponent`.  The JSON `config` blob
is modelled as a string-keyed association list covering the keys the
embedded code inspects. -/
structure Component where
  id : Nat
  name : String
  component_type : String
  order : Nat
  config : List (String × String)
deriving Repr, DecidableEq

/-- One row of `workflow.models.RetryStrategy`. -/
structure RetryStrategy where
  strategy_type : String
  max_retries : Nat
  initial_delay_seconds : Nat
  backoff_factor : ℚ
deriving Repr, DecidableEq

/-- One row of `workflow.models.ComponentExecutionStatus` (the fields the
executor reads or writes). -/
structure ComponentExecutionStatus where
  status : String
  started_at : Option Nat
  completed_at : Option Nat
  retry_count : Nat
  error_message : String
deriving Repr, DecidableEq

/-- The record created by `_initialize_component_statuses`
(status `pending`, all other fields at their model defaults). -/
def freshStatus : ComponentExecutionStatus :=
  { status := "pending", started_at := none, completed_at := none
    retry_count := 0, error_message := "" }

/-- Python `config.get(key)`. -/
def configGet (cfg : List (String × String)) (key : String) : Option String :=
  (cfg.find? (fun p => p.1 == key)).map (fun p => p.2)

/-- Python truthiness of an optional string (`None` and `''` are falsy). -/
def strTruthy : Option String → Bool
  | none => false
  | some s => !s.isEmpty

/-- Ghost trace of backend operations performed while executing a component. -/
inductive BackendCall where
  | kafka (cid : Nat)
  | mq (cid : Nat)
  | db (cid : Nat)
  | api (cid : Nat)
  | http (method : String) (url : String)
deriving Repr, DecidableEq

/-- Oracle for the external effects of one execution attempt: the outcome of
the kafka / mq / db / api simulation bodies, and the HTTP exchange used by
the service branch (method and url mapped to a status code or a transport
error). -/
structure Env where
  kafka : Except String Unit
  mq : Except String Unit
  db : Except String Unit
  api : Except String Unit
  http : String → String → Except String Nat

/-- The HTTP methods dispatched by `_simulate_service_component`. -/
def httpMethods : List String := ["GET", "POST", "PUT", "DELETE", "PATCH"]

/-- `WorkflowExecutor._simulate_service_component` (lines 579-649): dispatch
on `service_type` with default `http`.  The `http` branch checks the url,
dispatches on the upper-cased method, performs the request through the
oracle and raises on a status of 400 or above (`raise_for_status`).  The
`grpc` and `soap` branches only log and fall through without raising; any
other service type raises. -/
def simulateServiceComponent (c : Component) (env : Env) :
    List BackendCall × Except String Unit :=
  let serviceType := (configGet c.config "service_type").getD "http"
  if serviceType == "http" then
    let url? := configGet c.config "url"
    let method := ((configGet c.config "method").getD "GET").toUpper
    if !strTruthy url? then
      ([], .error ("No URL specified for HTTP service component " ++ c.name))
    else
      let url := url?.getD ""
      if httpMethods.contains method then
        match env.http method url with
        | .error e => ([.http method url], .error e)
        | .ok code =>
          if 400 ≤ code then
            ([.http method url], .error "HTTP error status")
          else
            ([.http method url], .ok ())
      else
        ([], .error ("Unsupported HTTP method: " ++ method))
  else if serviceType == "grpc" then
    ([], .ok ())
  else if serviceType == "soap" then
    ([], .ok ())
  else
    ([], .error ("Unsupported service type: " ++ serviceType))

/-- The `component_type` dispatch chain inside `_execute_component`
(lines 104-113).  The chain has no `else` branch: an unknown type performs
nothing and falls through as success. -/
def dispatchComponent (c : Component) (env : Env) :
    List BackendCall × Except String Unit :=
  if c.component_type == "kafka" then ([.kafka c.id], env.kafka)
  else if c.component_type == "mq" then ([.mq c.id], env.mq)
  else if c.component_type == "db" then ([.db c.id], env.db)
  else if c.component_type == "service" then simulateServiceComponent c env
  else if c.component_type == "api" then ([.api c.id], env.api)
  else ([], .ok ())

/-- Result of `_execute_component` on one component, with ghost traces:
number of execution attempts, the arguments of the `time.sleep` calls in
order, the backend calls performed, and whether the component raised the
validation-required abort (line 144). -/
structure CompExecResult where
  record : ComponentExecutionStatus
  attempts : Nat
  sleeps : List ℚ
  calls : List BackendCall
  aborted : Bool
deriving Repr, DecidableEq

/-- The `while not success and current_retry <= max_retries` loop of
`_execute_component` (lines 99-144).  `fuel` is `max_retries + 1` minus the
current retry count, which bounds the remaining iterations; the entry point
always supplies enough fuel, so the fuel-exhausted branch is unreachable.
On failure the retry counter is stored, and if the budget is not exhausted
the delay is first multiplied by the backoff factor (for an existing
exponential strategy) and then slept; on exhaustion the record is marked
`failed` with the error message, and the abort flag is set exactly when
`validation_enabled` holds and `validation_mode` is `required`. -/
def retryLoop (c : Component) (envs : Nat → Env) (isExp : Bool) (backoff : ℚ)
    (maxR : Nat) (venabled : Bool) (vmode : String) :
    Nat → Nat → ℚ → ComponentExecutionStatus → CompExecResult
  | 0, _, _, row => ⟨row, 0, [], [], false⟩
  | fuel + 1, currentRetry, delay, row =>
    let sim := dispatchComponent c (envs currentRetry)
    match sim.2 with
    | .ok _ =>
      ⟨{ row with status := "completed" }, 1, [], sim.1, false⟩
    | .error e =>
      let cr := currentRetry + 1
      let row1 := { row with retry_count := cr }
      if cr ≤ maxR then
        let delay1 := if isExp then delay * backoff else delay
        let rest := retryLoop c envs isExp backoff maxR venabled vmode fuel cr delay1 row1
        ⟨rest.record, rest.attempts + 1, delay1 :: rest.sleeps,
          sim.1 ++ rest.calls, rest.aborted⟩
      else
        let row2 := { row1 with status := "failed", error_message := e }
        ⟨row2, 1, [], sim.1, venabled && vmode == "required"⟩

/-- `WorkflowExecutor._execute_component` (lines 78-147): mark the record
`running` with a start timestamp, read the (zero-or-one) retry strategy,
run the retry loop, and on the non-abort exits stamp `completed_at`.  On
the abort path (the raise at line 144) lines 146-147 are skipped, so
`completed_at` stays unset.  Returns the result and the advanced clock. -/
def executeComponent (c : Component) (envs : Nat → Env) (strat : Option RetryStrategy)
    (venabled : Bool) (vmode : String) (row : ComponentExecutionStatus) (clock : Nat) :
    CompExecResult × Nat :=
  let row1 := { row with status := "running", started_at := some clock }
  let maxR := match strat with
    | some s => s.max_retries
    | none => 0
  let delay0 : ℚ := match strat with
    | some s => (s.initial_delay_seconds : ℚ)
    | none => 0
  let isExp := match strat with
    | some s => s.strategy_type == "exponential"
    | none => false
  let backoff : ℚ := match strat with
    | some s => s.backoff_factor
    | none => 0
  let r := retryLoop c envs isExp backoff maxR venabled vmode (maxR + 1) 0 delay0 row1
  if r.aborted then
    (r, clock + 1)
  else
    ({ r with record := { r.record with completed_at := some (clock + 1) } }, clock + 2)

/-- An environment whose every oracle fails (used for concrete runs). -/
def envAllFail : Env :=
  { kafka := .error "boom", mq := .error "boom", db := .error "boom"
    api := .error "boom", http := fun _ _ => .error "boom" }

/-- An environment whose every oracle succeeds (used for concrete runs). -/
def envAllOk : Env :=
  { kafka := .ok (), mq := .ok (), db := .ok ()
    api := .ok (), http := fun _ _ => .ok 200 }

/-- `ComponentExecutionStatus.objects.get(workflow_execution=…, component=c)`:
look a record up by component id in the run's record table (first match). -/
def getRecord : List (Nat × ComponentExecutionStatus) → Nat →
    Option ComponentExecutionStatus
  | [], _ => none
  | p :: t, cid => if p.1 == cid then some p.2 else getRecord t cid

/-- Saving a fetched record back: replace the entry with the given key. -/
def setRecord : List (Nat × ComponentExecutionStatus) → Nat →
    ComponentExecutionStatus → List (Nat × ComponentExecutionStatus)
  | [], _, _ => []
  | p :: t, cid, v => (if p.1 == cid then (p.1, v) else p) :: setRecord t cid v

/-- `WorkflowExecutor._initialize_component_statuses` (lines 69-76): one
`pending` record per component, in order. -/
def initComponentStatuses (comps : List Component) :
    List (Nat × ComponentExecutionStatus) :=
  comps.map (fun c => (c.id, freshStatus))

/-- Outcome of the component loop of `execute` (lines 38-44): whether an
exception escaped (the validation-required abort, or a missing record), the
record table, the ghost list of ids of components whose execution branch was
entered (in order), and the clock. -/
structure LoopOut where
  aborted : Bool
  records : List (Nat × ComponentExecutionStatus)
  attempted : List Nat
  clock : Nat
deriving Repr, DecidableEq

/-- The `for component in self.components` loop of `execute` (lines 38-44):
fetch the component's record (a missing record raises `DoesNotExist`, which
the surrounding `try` turns into a run failure), execute the component, and
stop as soon as the validation-required abort is raised. -/
def executeLoop (envs : Nat → Nat → Env) (strategies : Nat → Option RetryStrategy)
    (venabled : Bool) (vmode : String) :
    List Component → List (Nat × ComponentExecutionStatus) → Nat → LoopOut
  | [], rs, clock => ⟨false, rs, [], clock⟩
  | c :: rest, rs, clock =>
    match getRecord rs c.id with
    | none => ⟨true, rs, [], clock⟩
    | some row =>
      let r := executeComponent c (envs c.id) (strategies c.id) venabled vmode row clock
      let rs1 := setRecord rs c.id r.1.record
      if r.1.aborted then ⟨true, rs1, [c.id], r.2⟩
      else
        let out := executeLoop envs strategies venabled vmode rest rs1 r.2
        ⟨out.aborted, out.records, c.id :: out.attempted, out.clock⟩

/-- Final state of a run as returned by `execute`. -/
structure RunResult where
  status : String
  records : List (Nat × ComponentExecutionStatus)
  attempted : List Nat
deriving Repr, DecidableEq

/-- `WorkflowExecutor.execute` (lines 25-67): initialize one pending record
per component, run the loop; an escaped exception marks the run `failed`,
otherwise the run is `completed` when every record has status `completed`
(`_check_all_components_completed`, lines 149-152) and `partially_completed`
otherwise. -/
def execute (comps : List Component) (envs : Nat → Nat → Env)
    (strategies : Nat → Option RetryStrategy) (venabled : Bool) (vmode : String) :
    RunResult :=
  let rs0 := initComponentStatuses comps
  let out := executeLoop envs strategies venabled vmode comps rs0 0
  if out.aborted then
    ⟨"failed", out.records, out.attempted⟩
  else if out.records.all (fun p => p.2.status == "completed") then
    ⟨"completed", out.records, out.attempted⟩
  else
    ⟨"partially_completed", out.records, out.attempted⟩

/-- The filter block of `_get_components_in_path` (lines 52-62): filter the
full ordered component list with the boundary comparisons selected by the
two include flags, against the (already normalized) order range `[s, e]`. -/
def rangeSelect (allComps : List Component) (s e : Nat) (incS incE : Bool) :
    List Component :=
  if incS && incE then
    allComps.filter (fun c => decide (s ≤ c.order) && decide (c.order ≤ e))
  else if incS && !incE then
    allComps.filter (fun c => decide (s ≤ c.order) && decide (c.order < e))
  else if !incS && incE then
    allComps.filter (fun c => decide (s < c.order) && decide (c.order ≤ e))
  else
    allComps.filter (fun c => decide (s < c.order) && decide (c.order < e))

/-- `SubWorkflowExecutor._get_components_in_path` (lines 32-62): take the
start and end orders; when the start order is the larger one, swap the two
orders together with the include flags (lines 45-50); then run the filter
block on the normalized range. -/
def getComponentsInPath (allComps : List Component) (startC endC : Component)
    (includeStart includeEnd : Bool) : List Component :=
  if startC.order > endC.order then
    rangeSelect allComps endC.order startC.order includeEnd includeStart
  else
    rangeSelect allComps startC.order endC.order includeStart includeEnd

/-- `SubWorkflowExecutor._initialize_component_statuses` for a sub-run with
a parent (lines 111-134): for each selected component, reset the parent's
existing record to `pending` with cleared timestamps, retry count and error
(exactly `freshStatus`), or create such a record when the parent has none. -/
def subInitStatuses (parent : List (Nat × ComponentExecutionStatus))
    (selected : List Component) : List (Nat × ComponentExecutionStatus) :=
  selected.foldl
    (fun rs c =>
      match getRecord rs c.id with
      | some _ => setRecord rs c.id freshStatus
      | none => rs ++ [(c.id, freshStatus)])
    parent

/-- `SubWorkflowExecutor.execute` for a sub-run with a parent (lines 64-109
and 214-226): select the window, reset or create the records of the selected
components in the parent's table, run the component loop over the selected
components, and compute the final status from the selected components'
records only (`component__in=self.components`).
`SubWorkflowExecutor._execute_component` (lines 143-212) is a verbatim copy
of `WorkflowExecutor._execute_component`, so the loop reuses
`executeComponent` via `executeLoop`. -/
def subExecute (allComps : List Component) (startC endC : Component)
    (includeStart includeEnd : Bool)
    (parent : List (Nat × ComponentExecutionStatus)) (envs : Nat → Nat → Env)
    (strategies : Nat → Option RetryStrategy) (venabled : Bool) (vmode : String) :
    RunResult :=
  let selected := getComponentsInPath allComps startC endC includeStart includeEnd
  let rs0 := subInitStatuses parent selected
  let out := executeLoop envs strategies venabled vmode selected rs0 0
  if out.aborted then
    ⟨"failed", out.records, out.attempted⟩
  else if (out.records.filter (fun p => selected.any (fun c => c.id == p.1))).all
      (fun p => p.2.status == "completed") then
    ⟨"completed", out.records, out.attempted⟩
  else
    ⟨"partially_completed", out.records, out.attempted⟩

/-! Embedding of `KafkaConnector.replay_topic_to_topic`
(`connectors/kafka_connector.py`, lines 186-248).  The consumer is
modelled as the sequence of batches its successive `poll` calls return
(`poll` returns a dict, and `if not records: break` fires on an empty
dict); producer and consumer effects are recorded as an event trace.
Message values are a type parameter; a record carries the optional key the
producer forwards.  The external-failure path of the surrounding
`try/except` (a Kafka client error) is environmental and not modelled. -/

/-- One consumed Kafka record (key and deserialized value). -/
structure KRecord (α : Type) where
  key : Option String
  value : α
deriving Repr, DecidableEq

/-- Ghost trace of consumer/producer operations performed by the replay. -/
inductive ReplayEvent (α : Type) where
  | subscribe (topic : String)
  | seekToBeginning
  | poll (numRecords : Nat)
  | send (topic : String) (value : α)
  | flush
deriving Repr, DecidableEq

/-- Why the replay loop stopped: an empty poll (`if not records: break`),
the in-batch limit return (line 237-240), or the modelled poll sequence
running out without an empty batch (a real consumer eventually returns an
empty poll, so theorems assume the sequence contains one). -/
inductive StopReason where
  | emptyPoll
  | limitReached
  | exhausted
  | notConnected
deriving Repr, DecidableEq

/-- Python truthiness of `limit and count >= limit`: `None` and `0` are
falsy, so the check only fires for a nonzero limit. -/
def pyLimitHit (limit : Option Nat) (count : Nat) : Bool :=
  match limit with
  | none => false
  | some 0 => false
  | some l => decide (l ≤ count)

/-- Line 226: `if filter_func and not filter_func(record.value): continue`
(a missing filter function skips nothing). -/
def skipRecord {α : Type} (filterF : Option (α → Bool)) (v : α) : Bool :=
  match filterF with
  | some f => !f v
  | none => false

/-- Line 230: `transform_func(record.value) if transform_func else
record.value`. -/
def applyTransform {α : Type} (transformF : Option (α → α)) (v : α) : α :=
  match transformF with
  | some t => t v
  | none => v

/-- The inner `for record in partition_records` body (lines 224-240):
filter, transform, send, bump the count, and return (after a flush) when
the limit check fires.  Returns the new count, the events of this batch and
whether the limit return was taken. -/
def replayBatch (target : String) (filterF : Option (α → Bool))
    (transformF : Option (α → α)) (limit : Option Nat) :
    List (KRecord α) → Nat → Nat × List (ReplayEvent α) × Bool
  | [], count => (count, [], false)
  | r :: rest, count =>
    if skipRecord filterF r.value then
      replayBatch target filterF transformF limit rest count
    else
      let msg := applyTransform transformF r.value
      let count1 := count + 1
      if pyLimitHit limit count1 then
        (count1, [.send target msg, .flush], true)
      else
        let out := replayBatch target filterF transformF limit rest count1
        (out.1, .send target msg :: out.2.1, out.2.2)

/-- The `while True` poll loop (lines 218-245): poll, break on an empty
poll, process the batch, and flush after the loop (or inside the limit
return). -/
def replayLoop (target : String) (filterF : Option (α → Bool))
    (transformF : Option (α → α)) (limit : Option Nat) :
    List (List (KRecord α)) → Nat → Nat × List (ReplayEvent α) × StopReason
  | [], count => (count, [.flush], .exhausted)
  | batch :: rest, count =>
    if batch.isEmpty then (count, [.poll 0, .flush], .emptyPoll)
    else
      let b := replayBatch target filterF transformF limit batch count
      if b.2.2 then (b.1, .poll batch.length :: b.2.1, .limitReached)
      else
        let out := replayLoop target filterF transformF limit rest b.1
        (out.1, .poll batch.length :: b.2.1 ++ out.2.1, out.2.2)

/-- Result of a replay call: the returned count, the event trace, and the
stop reason. -/
structure ReplayResult (α : Type) where
  count : Nat
  events : List (ReplayEvent α)
  reason : StopReason
deriving Repr, DecidableEq

/-- `KafkaConnector.replay_topic_to_topic` (lines 186-248): bail out with 0
when not connected, otherwise subscribe to the source, reset offsets to the
beginning, and run the poll loop. -/
def replayTopicToTopic (connected : Bool) (source target : String)
    (filterF : Option (α → Bool)) (transformF : Option (α → α))
    (limit : Option Nat) (polls : List (List (KRecord α))) : ReplayResult α :=
  if !connected then ⟨0, [], .notConnected⟩
  else
    let out := replayLoop target filterF transformF limit polls 0
    ⟨out.1, .subscribe source :: .seekToBeginning :: out.2.1, out.2.2⟩

/-! Auxiliary predicates and concrete sample data used by the theorems. -/

/-- Whether an execution attempt raised (its simulate call returned an
error). -/
def isErr : Except String Unit → Bool
  | .ok _ => false
  | .error _ => true

deriving instance DecidableEq for Except

/-- Specification-side predicate: the order comparison chosen by the two
include flags admits the value `v` for the normalized window `[s, e]`. -/
def windowAllows (s e : Nat) (incS incE : Bool) (v : Nat) : Bool :=
  (if incS then decide (s ≤ v) else decide (s < v)) &&
  (if incE then decide (v ≤ e) else decide (v < e))

/-- The retry strategy of claim C1. -/
def expStrategy : RetryStrategy :=
  { strategy_type := "exponential", max_retries := 3
    initial_delay_seconds := 1, backoff_factor := 2 }

/-- Sample kafka component. -/
def compKafka1 : Component :=
  { id := 1, name := "a", component_type := "kafka", order := 1, config := [] }

/-- Sample mq component. -/
def compMq2 : Component :=
  { id := 2, name := "b", component_type := "mq", order := 2, config := [] }

/-- Sample service component configured with `service_type = grpc`. -/
def compServiceGrpc : Component :=
  { id := 3, name := "svc", component_type := "service", order := 3
    config := [("service_type", "grpc")] }

/-- Sample service component configured with `service_type = soap`. -/
def compServiceSoap : Component :=
  { id := 4, name := "svc2", component_type := "service", order := 4
    config := [("service_type", "soap")] }

/-- Sample component whose type is none of the five dispatched types. -/
def compUntyped : Component :=
  { id := 9, name := "x", component_type := "custom", order := 9, config := [] }

/-- Sample component with order 0. -/
def compOrd0 : Component :=
  { id := 11, name := "o0", component_type := "kafka", order := 0, config := [] }

/-- Sample component with order 5. -/
def compOrd5 : Component :=
  { id := 12, name := "o5", component_type := "kafka", order := 5, config := [] }

/-- Sample workflow with four components of orders 1..4 (ids 21..24). -/
def wComp (i : Nat) : Component :=
  { id := 20 + i, name := "w", component_type := "kafka", order := i, config := [] }

/-- A per-component oracle family where exactly the component with id `bad`
fails every attempt and every other component succeeds. -/
def envsFailOnly (bad : Nat) : Nat → Nat → Env :=
  fun cid _ => if cid == bad then envAllFail else envAllOk

/-- The record of a component that completed first try at clock 0. -/
def doneRecord : ComponentExecutionStatus :=
  { status := "completed", started_at := some 0, completed_at := some 1
    retry_count := 0, error_message := "" }

/-! Theorems settling the claims. -/

/-- Claim C1, counterexample: with the exponential strategy
(max_retries 3, initial_delay 1, backoff 2) and a component failing every
attempt, `_execute_component` sleeps 2, 4 and 8 seconds between attempts —
not the 1, 2 and 4 seconds the claim states, because the delay is
multiplied by the backoff factor before the first sleep. -/
theorem exponential_retry_delay_counterexample :
    (executeComponent compKafka1 (fun _ => envAllFail) (some expStrategy)
      false "optional" freshStatus 0).1.sleeps = [2, 4, 8] ∧
    ([2, 4, 8] : List ℚ) ≠ [1, 2, 4] := by
  constructor
  · norm_num [executeComponent, retryLoop, dispatchComponent, envAllFail,
      freshStatus, compKafka1, expStrategy]
  · intro h
    simp only [List.cons.injEq] at h
    exact absurd h.1 (by norm_num)

/-- Claim C1 (amended): for the exponential strategy with max_retries 3,
initial_delay 1 and backoff_factor 2, a component failing every attempt is
executed exactly 4 times (initial attempt plus 3 retries), the sleeps
between consecutive attempts are 2, 4 and 8 seconds (the delay is
multiplied by the backoff factor before each sleep, including the first),
and the component record is left with terminal status `failed`. -/
theorem exponential_retry_exhaustion (c : Component) (envs : Nat → Env)
    (venabled : Bool) (vmode : String) (row : ComponentExecutionStatus) (clock : Nat)
    (hfail : ∀ i, isErr (dispatchComponent c (envs i)).2 = true) :
    (executeComponent c envs (some expStrategy) venabled vmode row clock).1.attempts = 4 ∧
    (executeComponent c envs (some expStrategy) venabled vmode row clock).1.sleeps
      = [2, 4, 8] ∧
    (executeComponent c envs (some expStrategy) venabled vmode row clock).1.record.status
      = "failed" := by
  have err : ∀ i, ∃ m, (dispatchComponent c (envs i)).2 = .error m := by
    intro i
    have h := hfail i
    cases he : (dispatchComponent c (envs i)).2 with
    | ok u => rw [he] at h; simp [isErr] at h
    | error m => exact ⟨m, rfl⟩
  obtain ⟨m0, e0⟩ := err 0
  obtain ⟨m1, e1⟩ := err 1
  obtain ⟨m2, e2⟩ := err 2
  obtain ⟨m3, e3⟩ := err 3
  refine ⟨?_, ?_, ?_⟩ <;>
  · norm_num [executeComponent, retryLoop, expStrategy, e0, e1, e2, e3]
    split <;> rfl

/-- Witness for `exponential_retry_exhaustion` at a concrete always-failing
kafka component. -/
theorem exponential_retry_exhaustion_witness :
    (executeComponent compKafka1 (fun _ => envAllFail) (some expStrategy)
      true "required" freshStatus 0).1.attempts = 4 ∧
    (executeComponent compKafka1 (fun _ => envAllFail) (some expStrategy)
      true "required" freshStatus 0).1.sleeps = [2, 4, 8] ∧
    (executeComponent compKafka1 (fun _ => envAllFail) (some expStrategy)
      true "required" freshStatus 0).1.record.status = "failed" :=
  exponential_retry_exhaustion compKafka1 (fun _ => envAllFail) true "required"
    freshStatus 0 (fun _ => rfl)

/-- Claim C3: computing the sub-workflow range with the endpoints given in
reversed order yields exactly the result of computing it with endpoints and
include flags already swapped into low-to-high order. -/
theorem range_swap_invariance (allComps : List Component) (startC endC : Component)
    (includeStart includeEnd : Bool) (h : startC.order > endC.order) :
    getComponentsInPath allComps startC endC includeStart includeEnd =
      getComponentsInPath allComps endC startC includeEnd includeStart := by
  have h' : ¬(endC.order > startC.order) := by omega
  unfold getComponentsInPath
  rw [if_pos h, if_neg h']

/-- Witness for `range_swap_invariance` on a concrete reversed window. -/
theorem range_swap_invariance_witness :
    getComponentsInPath [compOrd0, compOrd5] compOrd5 compOrd0 true false =
      getComponentsInPath [compOrd0, compOrd5] compOrd0 compOrd5 false true :=
  range_swap_invariance [compOrd0, compOrd5] compOrd5 compOrd0 true false (by decide)

/-- Claim C7, evaluation at the failing input: a service component whose
`service_type` is `grpc` (or `soap`) does not raise — the dispatch returns
success without any backend call, and `_execute_component` marks the
component `completed` on the first attempt with no retries, even under an
environment where every real backend operation would fail.  This
contradicts the claim (and §4.4 of the spec), which requires a clear
"unsupported" failure handed to retry handling. -/
theorem grpc_soap_silent_success :
    dispatchComponent compServiceGrpc envAllFail = ([], .ok ()) ∧
    dispatchComponent compServiceSoap envAllFail = ([], .ok ()) ∧
    (executeComponent compServiceGrpc (fun _ => envAllFail) none true "required"
      freshStatus 0).1.record.status = "completed" ∧
    (executeComponent compServiceGrpc (fun _ => envAllFail) none true "required"
      freshStatus 0).1.attempts = 1 ∧
    (executeComponent compServiceGrpc (fun _ => envAllFail) none true "required"
      freshStatus 0).1.record.retry_count = 0 := by
  refine ⟨by decide, by decide, by decide, by decide, by decide⟩

/-- Claim C8, counterexample: `replay_topic_to_topic` called with the limit
0 replays past the limit — Python's `if limit and count >= limit` treats a
zero limit as falsy, so the run stops only at the empty poll and returns
count 1, exceeding the given limit 0. -/
theorem replay_zero_limit_counterexample :
    (replayTopicToTopic (α := Nat) true "src" "dst" none none (some 0)
      [[⟨none, 7⟩], []]).count = 1 ∧
    (replayTopicToTopic (α := Nat) true "src" "dst" none none (some 0)
      [[⟨none, 7⟩], []]).reason = .emptyPoll ∧
    ¬(1 ≤ 0) := by
  refine ⟨by decide, by decide, by omega⟩

/-- Claim C6, counterexample: a required-validation run whose first
component exhausts its (empty) retry budget ends with terminal run status
`failed` while the second component's initialized record still has the
non-terminal status `pending` — the claimed invariant fails on the abort
path. -/
theorem terminal_invariant_counterexample :
    (execute [compKafka1, compMq2] (envsFailOnly 1) (fun _ => none)
      true "required").status = "failed" ∧
    getRecord (execute [compKafka1, compMq2] (envsFailOnly 1) (fun _ => none)
      true "required").records 2 = some freshStatus ∧
    freshStatus.status = "pending" := by
  refine ⟨by decide, by decide, by decide⟩

/-- Claim C4, counterexample: over the ascending list with orders 0 and 5
and the normalized both-exclusive window (0, 5), the selector's output is
empty although the bounds admit the order value 1 (and the endpoints are
distinct components) — the range can be empty whenever no component's order
falls inside the bounds, not only when the bounds admit no order values. -/
theorem range_empty_counterexample :
    getComponentsInPath [compOrd0, compOrd5] compOrd0 compOrd5 false false = [] ∧
    windowAllows 0 5 false false 1 = true ∧
    compOrd0 ≠ compOrd5 := by
  refine ⟨by decide, by decide, by decide⟩

/-- Claim C10: a component whose `component_type` is none of kafka, mq, db,
service, api falls through the dispatch chain without performing any
backend operation and is marked `completed` on the first attempt. -/
theorem unknown_type_completes (c : Component) (envs : Nat → Env)
    (strat : Option RetryStrategy) (venabled : Bool) (vmode : String)
    (row : ComponentExecutionStatus) (clock : Nat)
    (h : c.component_type ∉ (["kafka", "mq", "db", "service", "api"] : List String)) :
    dispatchComponent c (envs 0) = ([], .ok ()) ∧
    (executeComponent c envs strat venabled vmode row clock).1.record.status
      = "completed" ∧
    (executeComponent c envs strat venabled vmode row clock).1.attempts = 1 ∧
    (executeComponent c envs strat venabled vmode row clock).1.calls = [] ∧
    (executeComponent c envs strat venabled vmode row clock).1.sleeps = [] ∧
    (executeComponent c envs strat venabled vmode row clock).1.aborted = false := by
  simp only [List.mem_cons, List.not_mem_nil, or_false, not_or] at h
  obtain ⟨h1, h2, h3, h4, h5⟩ := h
  have hd : ∀ env, dispatchComponent c env = ([], .ok ()) := by
    intro env
    simp [dispatchComponent, h1, h2, h3, h4, h5]
  refine ⟨hd _, ?_, ?_, ?_, ?_, ?_⟩ <;>
    simp [executeComponent, retryLoop, hd]

/-! Helper lemmas about the record table. -/

theorem getRecord_setRecord_ne (rs : List (Nat × ComponentExecutionStatus))
    (cid cid' : Nat) (v : ComponentExecutionStatus) (h : cid' ≠ cid) :
    getRecord (setRecord rs cid v) cid' = getRecord rs cid' := by
  induction rs with
  | nil => rfl
  | cons p t ih =>
    by_cases hpc : p.1 = cid
    · have hp' : p.1 ≠ cid' := by omega
      simp [setRecord, getRecord, hpc, hp', Ne.symm h, ih]
    · by_cases hp' : p.1 = cid'
      · simp [setRecord, getRecord, hpc, hp', h]
      · simp [setRecord, getRecord, hpc, hp', ih]

theorem getRecord_setRecord_self (rs : List (Nat × ComponentExecutionStatus))
    (cid : Nat) (v w : ComponentExecutionStatus) (h : getRecord rs cid = some w) :
    getRecord (setRecord rs cid v) cid = some v := by
  induction rs with
  | nil => simp [getRecord] at h
  | cons p t ih =>
    by_cases hpc : p.1 = cid
    · simp [setRecord, getRecord, hpc]
    · simp only [getRecord, hpc, if_neg, beq_iff_eq, if_false] at h
      simp [setRecord, getRecord, hpc, ih h]

theorem setRecord_keys (rs : List (Nat × ComponentExecutionStatus)) (cid : Nat)
    (v : ComponentExecutionStatus) :
    (setRecord rs cid v).map (fun p => p.1) = rs.map (fun p => p.1) := by
  induction rs with
  | nil => rfl
  | cons p t ih =>
    by_cases hpc : p.1 = cid <;> simp [setRecord, hpc, ih]

theorem getRecord_none_iff (rs : List (Nat × ComponentExecutionStatus)) (cid : Nat) :
    getRecord rs cid = none ↔ cid ∉ rs.map (fun p => p.1) := by
  induction rs with
  | nil => simp [getRecord]
  | cons p t ih =>
    by_cases hpc : p.1 = cid
    · simp [getRecord, hpc]
    · simp [getRecord, hpc, ih, Ne.symm hpc]

theorem getRecord_init (comps : List Component) (cid : Nat)
    (h : cid ∈ comps.map Component.id) :
    getRecord (initComponentStatuses comps) cid = some freshStatus := by
  induction comps with
  | nil => simp at h
  | cons c t ih =>
    by_cases hc : c.id = cid
    · simp [initComponentStatuses, getRecord, hc]
    · simp only [List.map_cons, List.mem_cons] at h
      rcases h with h | h
      · exact absurd h.symm hc
      · simpa [initComponentStatuses, getRecord, hc] using ih h

theorem getRecord_of_mem_nodup (rs : List (Nat × ComponentExecutionStatus))
    (p : Nat × ComponentExecutionStatus)
    (hnd : (rs.map (fun q => q.1)).Nodup) (hm : p ∈ rs) :
    getRecord rs p.1 = some p.2 := by
  induction rs with
  | nil => simp at hm
  | cons q t ih =>
    simp only [List.map_cons, List.nodup_cons] at hnd
    rcases List.mem_cons.mp hm with h | h
    · subst h
      simp [getRecord]
    · have hq : q.1 ≠ p.1 := by
        intro he
        exact hnd.1 (he ▸ List.mem_map.mpr ⟨p, h, rfl⟩)
      simpa [getRecord, hq] using ih hnd.2 h

/-! Helper lemmas about the retry loop and the component executor. -/

theorem retryLoop_aborted_of_not_required (c : Component) (envs : Nat → Env)
    (isExp : Bool) (backoff : ℚ) (maxR : Nat) (venabled : Bool) (vmode : String)
    (hnr : (venabled && vmode == "required") = false) :
    ∀ (fuel cr : Nat) (delay : ℚ) (row : ComponentExecutionStatus),
      (retryLoop c envs isExp backoff maxR venabled vmode fuel cr delay row).aborted
        = false := by
  intro fuel
  induction fuel with
  | zero => intro cr delay row; rfl
  | succ n ih =>
    intro cr delay row
    simp only [retryLoop]
    cases (dispatchComponent c (envs cr)).2 with
    | ok u => rfl
    | error e =>
      by_cases hcr : cr + 1 ≤ maxR
      · simpa [hcr] using ih (cr + 1) _ _
      · simpa [hcr] using hnr

theorem retryLoop_aborted_of_required (c : Component) (envs : Nat → Env)
    (isExp : Bool) (backoff : ℚ) (maxR : Nat) (venabled : Bool) (vmode : String)
    (hreq : (venabled && vmode == "required") = true)
    (herr : ∀ i, isErr (dispatchComponent c (envs i)).2 = true) :
    ∀ (fuel cr : Nat) (delay : ℚ) (row : ComponentExecutionStatus),
      cr ≤ maxR → fuel = maxR + 1 - cr →
      (retryLoop c envs isExp backoff maxR venabled vmode fuel cr delay row).aborted
        = true := by
  intro fuel
  induction fuel with
  | zero => intro cr delay row hcr hf; omega
  | succ n ih =>
    intro cr delay row hcr hf
    simp only [retryLoop]
    have h := herr cr
    cases he : (dispatchComponent c (envs cr)).2 with
    | ok u => rw [he] at h; simp [isErr] at h
    | error e =>
      by_cases hcr1 : cr + 1 ≤ maxR
      · simpa [hcr1] using ih (cr + 1) _ _ hcr1 (by omega)
      · simpa [hcr1] using hreq

theorem retryLoop_status_terminal (c : Component) (envs : Nat → Env)
    (isExp : Bool) (backoff : ℚ) (maxR : Nat) (venabled : Bool) (vmode : String) :
    ∀ (fuel cr : Nat) (delay : ℚ) (row : ComponentExecutionStatus),
      cr ≤ maxR → fuel = maxR + 1 - cr →
      (retryLoop c envs isExp backoff maxR venabled vmode fuel cr delay row).record.status
          = "completed" ∨
        (retryLoop c envs isExp backoff maxR venabled vmode fuel cr delay row).record.status
          = "failed" := by
  intro fuel
  induction fuel with
  | zero => intro cr delay row hcr hf; omega
  | succ n ih =>
    intro cr delay row hcr hf
    simp only [retryLoop]
    cases (dispatchComponent c (envs cr)).2 with
    | ok u => left; rfl
    | error e =>
      by_cases hcr1 : cr + 1 ≤ maxR
      · simpa [hcr1] using ih (cr + 1) _ _ hcr1 (by omega)
      · right; simp [hcr1]

theorem retryLoop_status_failed (c : Component) (envs : Nat → Env)
    (isExp : Bool) (backoff : ℚ) (maxR : Nat) (venabled : Bool) (vmode : String)
    (herr : ∀ i, isErr (dispatchComponent c (envs i)).2 = true) :
    ∀ (fuel cr : Nat) (delay : ℚ) (row : ComponentExecutionStatus),
      cr ≤ maxR → fuel = maxR + 1 - cr →
      (retryLoop c envs isExp backoff maxR venabled vmode fuel cr delay row).record.status
        = "failed" := by
  intro fuel
  induction fuel with
  | zero => intro cr delay row hcr hf; omega
  | succ n ih =>
    intro cr delay row hcr hf
    simp only [retryLoop]
    have h := herr cr
    cases he : (dispatchComponent c (envs cr)).2 with
    | ok u => rw [he] at h; simp [isErr] at h
    | error e =>
      by_cases hcr1 : cr + 1 ≤ maxR
      · simpa [hcr1] using ih (cr + 1) _ _ hcr1 (by omega)
      · simp [hcr1]

theorem executeComponent_aborted_false (c : Component) (envs : Nat → Env)
    (strat : Option RetryStrategy) (venabled : Bool) (vmode : String)
    (row : ComponentExecutionStatus) (clock : Nat)
    (hnr : (venabled && vmode == "required") = false) :
    (executeComponent c envs strat venabled vmode row clock).1.aborted = false := by
  have h := retryLoop_aborted_of_not_required c envs
    (match strat with
      | some s => s.strategy_type == "exponential"
      | none => false)
    (match strat with
      | some s => s.backoff_factor
      | none => 0)
    (match strat with
      | some s => s.max_retries
      | none => 0)
    venabled vmode hnr
  simp only [executeComponent]
  simp [h]

theorem executeComponent_aborted_true (c : Component) (envs : Nat → Env)
    (strat : Option RetryStrategy) (venabled : Bool) (vmode : String)
    (row : ComponentExecutionStatus) (clock : Nat)
    (hreq : (venabled && vmode == "required") = true)
    (herr : ∀ i, isErr (dispatchComponent c (envs i)).2 = true) :
    (executeComponent c envs strat venabled vmode row clock).1.aborted = true := by
  have h := retryLoop_aborted_of_required c envs
    (match strat with
      | some s => s.strategy_type == "exponential"
      | none => false)
    (match strat with
      | some s => s.backoff_factor
      | none => 0)
    (match strat with
      | some s => s.max_retries
      | none => 0)
    venabled vmode hreq herr
    ((match strat with
      | some s => s.max_retries
      | none => 0) + 1) 0
    (match strat with
      | some s => (s.initial_delay_seconds : ℚ)
      | none => 0)
    { row with status := "running", started_at := some clock }
    (Nat.zero_le _) (by omega)
  simp only [executeComponent]
  simp [h]

/-! Helper lemmas about the component loop of `execute`. -/

theorem executeLoop_cons_none {envs : Nat → Nat → Env}
    {strategies : Nat → Option RetryStrategy} {venabled : Bool} {vmode : String}
    {c : Component} {rest : List Component}
    {rs : List (Nat × ComponentExecutionStatus)} {clock : Nat}
    (hg : getRecord rs c.id = none) :
    executeLoop envs strategies venabled vmode (c :: rest) rs clock
      = ⟨true, rs, [], clock⟩ := by
  simp [executeLoop, hg]

theorem executeLoop_cons_abort {envs : Nat → Nat → Env}
    {strategies : Nat → Option RetryStrategy} {venabled : Bool} {vmode : String}
    {c : Component} {rest : List Component}
    {rs : List (Nat × ComponentExecutionStatus)} {clock : Nat}
    {row : ComponentExecutionStatus} (hg : getRecord rs c.id = some row)
    (hab : (executeComponent c (envs c.id) (strategies c.id) venabled vmode
      row clock).1.aborted = true) :
    executeLoop envs strategies venabled vmode (c :: rest) rs clock
      = ⟨true,
          setRecord rs c.id (executeComponent c (envs c.id) (strategies c.id)
            venabled vmode row clock).1.record,
          [c.id],
          (executeComponent c (envs c.id) (strategies c.id) venabled vmode
            row clock).2⟩ := by
  simp [executeLoop, hg, hab]

theorem executeLoop_cons_cont {envs : Nat → Nat → Env}
    {strategies : Nat → Option RetryStrategy} {venabled : Bool} {vmode : String}
    {c : Component} {rest : List Component}
    {rs : List (Nat × ComponentExecutionStatus)} {clock : Nat}
    {row : ComponentExecutionStatus} (hg : getRecord rs c.id = some row)
    (hab : (executeComponent c (envs c.id) (strategies c.id) venabled vmode
      row clock).1.aborted = false) :
    executeLoop envs strategies venabled vmode (c :: rest) rs clock
      = ⟨(executeLoop envs strategies venabled vmode rest
            (setRecord rs c.id (executeComponent c (envs c.id) (strategies c.id)
              venabled vmode row clock).1.record)
            (executeComponent c (envs c.id) (strategies c.id) venabled vmode
              row clock).2).aborted,
          (executeLoop envs strategies venabled vmode rest
            (setRecord rs c.id (executeComponent c (envs c.id) (strategies c.id)
              venabled vmode row clock).1.record)
            (executeComponent c (envs c.id) (strategies c.id) venabled vmode
              row clock).2).records,
          c.id :: (executeLoop envs strategies venabled vmode rest
            (setRecord rs c.id (executeComponent c (envs c.id) (strategies c.id)
              venabled vmode row clock).1.record)
            (executeComponent c (envs c.id) (strategies c.id) venabled vmode
              row clock).2).attempted,
          (executeLoop envs strategies venabled vmode rest
            (setRecord rs c.id (executeComponent c (envs c.id) (strategies c.id)
              venabled vmode row clock).1.record)
            (executeComponent c (envs c.id) (strategies c.id) venabled vmode
              row clock).2).clock⟩ := by
  simp [executeLoop, hg, hab]

theorem executeLoop_attempted_subset (envs : Nat → Nat → Env)
    (strategies : Nat → Option RetryStrategy) (venabled : Bool) (vmode : String) :
    ∀ (comps : List Component) (rs : List (Nat × ComponentExecutionStatus))
      (clock : Nat) (cid : Nat),
      cid ∈ (executeLoop envs strategies venabled vmode comps rs clock).attempted →
      cid ∈ comps.map Component.id := by
  intro comps
  induction comps with
  | nil => intro rs clock cid h; simp [executeLoop] at h
  | cons c rest ih =>
    intro rs clock cid h
    cases hg : getRecord rs c.id with
    | none => rw [executeLoop_cons_none hg] at h; simp at h
    | some row =>
      by_cases hab : (executeComponent c (envs c.id) (strategies c.id) venabled vmode
          row clock).1.aborted = true
      · rw [executeLoop_cons_abort hg hab] at h
        simp only [List.mem_singleton] at h
        simp [h]
      · rw [executeLoop_cons_cont hg (Bool.not_eq_true _ ▸ hab)] at h
        simp only [List.mem_cons] at h
        rcases h with h | h
        · simp [h]
        · simp [ih _ _ _ h]

theorem executeLoop_untouched (envs : Nat → Nat → Env)
    (strategies : Nat → Option RetryStrategy) (venabled : Bool) (vmode : String) :
    ∀ (comps : List Component) (rs : List (Nat × ComponentExecutionStatus))
      (clock : Nat) (cid : Nat),
      cid ∉ (executeLoop envs strategies venabled vmode comps rs clock).attempted →
      getRecord (executeLoop envs strategies venabled vmode comps rs clock).records cid
        = getRecord rs cid := by
  intro comps
  induction comps with
  | nil => intro rs clock cid _; rfl
  | cons c rest ih =>
    intro rs clock cid h
    cases hg : getRecord rs c.id with
    | none => rw [executeLoop_cons_none hg]
    | some row =>
      by_cases hab : (executeComponent c (envs c.id) (strategies c.id) venabled vmode
          row clock).1.aborted = true
      · rw [executeLoop_cons_abort hg hab] at h ⊢
        simp only [List.mem_singleton] at h
        exact getRecord_setRecord_ne _ _ _ _ h
      · rw [executeLoop_cons_cont hg (Bool.not_eq_true _ ▸ hab)] at h ⊢
        simp only [List.mem_cons, not_or] at h
        rw [ih _ _ _ h.2]
        exact getRecord_setRecord_ne _ _ _ _ h.1

theorem executeLoop_keys (envs : Nat → Nat → Env)
    (strategies : Nat → Option RetryStrategy) (venabled : Bool) (vmode : String) :
    ∀ (comps : List Component) (rs : List (Nat × ComponentExecutionStatus))
      (clock : Nat),
      (executeLoop envs strategies venabled vmode comps rs clock).records.map
          (fun p => p.1)
        = rs.map (fun p => p.1) := by
  intro comps
  induction comps with
  | nil => intro rs clock; rfl
  | cons c rest ih =>
    intro rs clock
    cases hg : getRecord rs c.id with
    | none => rw [executeLoop_cons_none hg]
    | some row =>
      by_cases hab : (executeComponent c (envs c.id) (strategies c.id) venabled vmode
          row clock).1.aborted = true
      · rw [executeLoop_cons_abort hg hab]
        exact setRecord_keys _ _ _
      · rw [executeLoop_cons_cont hg (Bool.not_eq_true _ ▸ hab)]
        rw [ih]
        exact setRecord_keys _ _ _

theorem executeLoop_abort_from (envs : Nat → Nat → Env)
    (strategies : Nat → Option RetryStrategy) (venabled : Bool) (vmode : String)
    (hreq : (venabled && vmode == "required") = true) :
    ∀ (comps : List Component) (k : Nat) (hk : k < comps.length)
      (rs : List (Nat × ComponentExecutionStatus)) (clock : Nat),
      (comps.map Component.id).Nodup →
      (∀ i, isErr (dispatchComponent (comps.get ⟨k, hk⟩)
        (envs (comps.get ⟨k, hk⟩).id i)).2 = true) →
      (executeLoop envs strategies venabled vmode comps rs clock).aborted = true ∧
      ∀ (j : Nat) (hj : j < comps.length), k < j →
        (comps.get ⟨j, hj⟩).id
            ∉ (executeLoop envs strategies venabled vmode comps rs clock).attempted ∧
        getRecord (executeLoop envs strategies venabled vmode comps rs clock).records
            (comps.get ⟨j, hj⟩).id
          = getRecord rs (comps.get ⟨j, hj⟩).id := by
  intro comps
  induction comps with
  | nil => intro k hk; simp at hk
  | cons c rest ih =>
    intro k hk rs clock hnd herr
    simp only [List.map_cons, List.nodup_cons] at hnd
    have hid_ne : ∀ (j' : Nat) (hj' : j' < rest.length), (rest.get ⟨j', hj'⟩).id ≠ c.id := by
      intro j' hj' he
      exact hnd.1 (he ▸ List.mem_map.mpr ⟨rest.get ⟨j', hj'⟩, List.get_mem rest j' hj', rfl⟩)
    cases k with
    | zero =>
      have herr' : ∀ i, isErr (dispatchComponent c (envs c.id i)).2 = true := by
        simpa using herr
      cases hg : getRecord rs c.id with
      | none =>
        rw [executeLoop_cons_none hg]
        refine ⟨rfl, ?_⟩
        intro j hj hkj
        cases j with
        | zero => omega
        | succ j' => simp
      | some row =>
        have hab := executeComponent_aborted_true c (envs c.id) (strategies c.id)
          venabled vmode row clock hreq herr'
        rw [executeLoop_cons_abort hg hab]
        refine ⟨rfl, ?_⟩
        intro j hj hkj
        cases j with
        | zero => omega
        | succ j' =>
          rw [List.get_cons_succ]
          have hne := hid_ne j' (by simpa using hj)
          exact ⟨by simpa using hne, getRecord_setRecord_ne _ _ _ _ hne⟩
    | succ k' =>
      have hk' : k' < rest.length := by simpa using hk
      have herr' : ∀ i, isErr (dispatchComponent (rest.get ⟨k', hk'⟩)
          (envs (rest.get ⟨k', hk'⟩).id i)).2 = true := by
        simpa [List.get_cons_succ] using herr
      cases hg : getRecord rs c.id with
      | none =>
        rw [executeLoop_cons_none hg]
        refine ⟨rfl, ?_⟩
        intro j hj hkj
        cases j with
        | zero => omega
        | succ j' => simp
      | some row =>
        by_cases hab : (executeComponent c (envs c.id) (strategies c.id) venabled vmode
            row clock).1.aborted = true
        · rw [executeLoop_cons_abort hg hab]
          refine ⟨rfl, ?_⟩
          intro j hj hkj
          cases j with
          | zero => omega
          | succ j' =>
            rw [List.get_cons_succ]
            have hne := hid_ne j' (by simpa using hj)
            exact ⟨by simpa using hne, getRecord_setRecord_ne _ _ _ _ hne⟩
        · rw [executeLoop_cons_cont hg (Bool.not_eq_true _ ▸ hab)]
          obtain ⟨habort, hrest⟩ := ih k' hk' _ _ hnd.2 herr'
          refine ⟨habort, ?_⟩
          intro j hj hkj
          cases j with
          | zero => omega
          | succ j' =>
            rw [List.get_cons_succ]
            have hj' : j' < rest.length := by simpa using hj
            have hne := hid_ne j' hj'
            obtain ⟨hnm, hrec⟩ := hrest j' hj' (by omega)
            refine ⟨?_, ?_⟩
            · simp only [List.mem_cons, not_or]
              exact ⟨hne, hnm⟩
            · rw [hrec]
              exact getRecord_setRecord_ne _ _ _ _ hne

/-- Claim C2: in a run with `validation_enabled = true` and
`validation_mode = "required"`, if the component at position `k` fails on
every execution attempt (hence exhausts its retry budget), the run ends with
status `failed` and no component at a later position is attempted — its
execution branch is never entered and its status record is left as the
pristine `pending` record. -/
theorem required_validation_abort (comps : List Component) (envs : Nat → Nat → Env)
    (strategies : Nat → Option RetryStrategy)
    (hids : (comps.map Component.id).Nodup) (k : Nat) (hk : k < comps.length)
    (herr : ∀ i, isErr (dispatchComponent (comps.get ⟨k, hk⟩)
      (envs (comps.get ⟨k, hk⟩).id i)).2 = true) :
    (execute comps envs strategies true "required").status = "failed" ∧
    ∀ (j : Nat) (hj : j < comps.length), k < j →
      (comps.get ⟨j, hj⟩).id
          ∉ (execute comps envs strategies true "required").attempted ∧
      getRecord (execute comps envs strategies true "required").records
          (comps.get ⟨j, hj⟩).id
        = some freshStatus := by
  obtain ⟨habort, hrest⟩ := executeLoop_abort_from envs strategies true "required"
    (by rfl) comps k hk (initComponentStatuses comps) 0 hids herr
  have hex : execute comps envs strategies true "required"
      = ⟨"failed",
          (executeLoop envs strategies true "required" comps
            (initComponentStatuses comps) 0).records,
          (executeLoop envs strategies true "required" comps
            (initComponentStatuses comps) 0).attempted⟩ := by
    simp [execute, habort]
  rw [hex]
  refine ⟨rfl, ?_⟩
  intro j hj hkj
  obtain ⟨hnm, hrec⟩ := hrest j hj hkj
  refine ⟨hnm, ?_⟩
  rw [hrec]
  exact getRecord_init comps _
    (List.mem_map.mpr ⟨comps.get ⟨j, hj⟩, List.get_mem comps j hj, rfl⟩)

/-- Witness for `required_validation_abort`: a concrete two-component run
whose first component always fails leaves the second unattempted and
pending while the run is `failed`. -/
theorem required_validation_abort_witness :
    (execute [compKafka1, compMq2] (envsFailOnly 1) (fun _ => none)
      true "required").status = "failed" ∧
    ([compKafka1, compMq2].get ⟨1, by decide⟩).id
        ∉ (execute [compKafka1, compMq2] (envsFailOnly 1) (fun _ => none)
            true "required").attempted ∧
    getRecord (execute [compKafka1, compMq2] (envsFailOnly 1) (fun _ => none)
        true "required").records ([compKafka1, compMq2].get ⟨1, by decide⟩).id
      = some freshStatus := by
  have h := required_validation_abort [compKafka1, compMq2] (envsFailOnly 1)
    (fun _ => none) (by decide) 0 (by decide) (fun i => rfl)
  exact ⟨h.1, (h.2 1 (by decide) (by decide)).1, (h.2 1 (by decide) (by decide)).2⟩

theorem executeComponent_status_failed (c : Component) (envs : Nat → Env)
    (strat : Option RetryStrategy) (venabled : Bool) (vmode : String)
    (row : ComponentExecutionStatus) (clock : Nat)
    (herr : ∀ i, isErr (dispatchComponent c (envs i)).2 = true) :
    (executeComponent c envs strat venabled vmode row clock).1.record.status
      = "failed" := by
  have h := retryLoop_status_failed c envs
    (match strat with
      | some s => s.strategy_type == "exponential"
      | none => false)
    (match strat with
      | some s => s.backoff_factor
      | none => 0)
    (match strat with
      | some s => s.max_retries
      | none => 0)
    venabled vmode herr
    ((match strat with
      | some s => s.max_retries
      | none => 0) + 1) 0
    (match strat with
      | some s => (s.initial_delay_seconds : ℚ)
      | none => 0)
    { row with status := "running", started_at := some clock }
    (Nat.zero_le _) (by omega)
  simp only [executeComponent]
  split <;> simpa using h

theorem executeComponent_status_terminal (c : Component) (envs : Nat → Env)
    (strat : Option RetryStrategy) (venabled : Bool) (vmode : String)
    (row : ComponentExecutionStatus) (clock : Nat) :
    (executeComponent c envs strat venabled vmode row clock).1.record.status
        = "completed" ∨
      (executeComponent c envs strat venabled vmode row clock).1.record.status
        = "failed" := by
  have h := retryLoop_status_terminal c envs
    (match strat with
      | some s => s.strategy_type == "exponential"
      | none => false)
    (match strat with
      | some s => s.backoff_factor
      | none => 0)
    (match strat with
      | some s => s.max_retries
      | none => 0)
    venabled vmode
    ((match strat with
      | some s => s.max_retries
      | none => 0) + 1) 0
    (match strat with
      | some s => (s.initial_delay_seconds : ℚ)
      | none => 0)
    { row with status := "running", started_at := some clock }
    (Nat.zero_le _) (by omega)
  simp only [executeComponent]
  rcases h with h | h
  · left; split <;> simpa using h
  · right; split <;> simpa using h

theorem mem_of_getRecord (rs : List (Nat × ComponentExecutionStatus)) (cid : Nat)
    (v : ComponentExecutionStatus) (h : getRecord rs cid = some v) :
    (cid, v) ∈ rs := by
  induction rs with
  | nil => simp [getRecord] at h
  | cons p t ih =>
    obtain ⟨a, b⟩ := p
    by_cases hpc : a = cid
    · subst hpc
      simp only [getRecord, beq_self_eq_true, if_true, Option.some.injEq] at h
      subst h
      exact List.mem_cons_self _ _
    · simp only [getRecord, beq_iff_eq, hpc, if_false] at h
      exact List.mem_cons_of_mem _ (ih h)

theorem executeLoop_runs_all (envs : Nat → Nat → Env)
    (strategies : Nat → Option RetryStrategy) (venabled : Bool) (vmode : String)
    (hnr : (venabled && vmode == "required") = false) :
    ∀ (comps : List Component) (rs : List (Nat × ComponentExecutionStatus))
      (clock : Nat),
      (∀ c ∈ comps, getRecord rs c.id ≠ none) →
      (executeLoop envs strategies venabled vmode comps rs clock).aborted = false ∧
      (executeLoop envs strategies venabled vmode comps rs clock).attempted
        = comps.map Component.id := by
  intro comps
  induction comps with
  | nil => intro rs clock _; exact ⟨rfl, rfl⟩
  | cons c rest ih =>
    intro rs clock hpres
    cases hg : getRecord rs c.id with
    | none => exact absurd hg (hpres c (List.mem_cons_self c rest))
    | some row =>
      have hab := executeComponent_aborted_false c (envs c.id) (strategies c.id)
        venabled vmode row clock hnr
      rw [executeLoop_cons_cont hg hab]
      have hpres' : ∀ d ∈ rest, getRecord (setRecord rs c.id
          (executeComponent c (envs c.id) (strategies c.id) venabled vmode
            row clock).1.record) d.id ≠ none := by
        intro d hd hnone
        apply hpres d (List.mem_cons_of_mem _ hd)
        rw [getRecord_none_iff] at hnone ⊢
        rwa [setRecord_keys] at hnone
      obtain ⟨ha, hat⟩ := ih _ _ hpres'
      exact ⟨ha, by simp [hat]⟩

theorem executeLoop_failed_at (envs : Nat → Nat → Env)
    (strategies : Nat → Option RetryStrategy) (venabled : Bool) (vmode : String)
    (hnr : (venabled && vmode == "required") = false) :
    ∀ (comps : List Component) (rs : List (Nat × ComponentExecutionStatus))
      (clock : Nat),
      (comps.map Component.id).Nodup →
      (∀ c ∈ comps, getRecord rs c.id ≠ none) →
      ∀ c ∈ comps, (∀ i, isErr (dispatchComponent c (envs c.id i)).2 = true) →
      ∃ v, getRecord (executeLoop envs strategies venabled vmode comps rs clock).records
            c.id = some v ∧ v.status = "failed" := by
  intro comps
  induction comps with
  | nil => intro rs clock _ _ c hc; simp at hc
  | cons d rest ih =>
    intro rs clock hnd hpres c hc herr
    simp only [List.map_cons, List.nodup_cons] at hnd
    cases hg : getRecord rs d.id with
    | none => exact absurd hg (hpres d (List.mem_cons_self d rest))
    | some row =>
      have hab := executeComponent_aborted_false d (envs d.id) (strategies d.id)
        venabled vmode row clock hnr
      rw [executeLoop_cons_cont hg hab]
      have hpres' : ∀ e ∈ rest, getRecord (setRecord rs d.id
          (executeComponent d (envs d.id) (strategies d.id) venabled vmode
            row clock).1.record) e.id ≠ none := by
        intro e he hnone
        apply hpres e (List.mem_cons_of_mem _ he)
        rw [getRecord_none_iff] at hnone ⊢
        rwa [setRecord_keys] at hnone
      rcases List.mem_cons.mp hc with hcd | hcr
      · subst hcd
        have hnm : c.id ∉ (executeLoop envs strategies venabled vmode rest
            (setRecord rs c.id (executeComponent c (envs c.id) (strategies c.id)
              venabled vmode row clock).1.record)
            (executeComponent c (envs c.id) (strategies c.id) venabled vmode
              row clock).2).attempted := by
          intro hmem
          exact hnd.1 (executeLoop_attempted_subset envs strategies venabled vmode
            rest _ _ _ hmem)
        rw [executeLoop_untouched envs strategies venabled vmode rest _ _ _ hnm]
        refine ⟨(executeComponent c (envs c.id) (strategies c.id) venabled vmode
          row clock).1.record, ?_, ?_⟩
        · exact getRecord_setRecord_self rs c.id _ row hg
        · exact executeComponent_status_failed c (envs c.id) (strategies c.id)
            venabled vmode row clock herr
      · exact ih _ _ hnd.2 hpres' c hcr herr

theorem executeLoop_terminal (envs : Nat → Nat → Env)
    (strategies : Nat → Option RetryStrategy) (venabled : Bool) (vmode : String) :
    ∀ (comps : List Component) (rs : List (Nat × ComponentExecutionStatus))
      (clock : Nat),
      (comps.map Component.id).Nodup →
      (executeLoop envs strategies venabled vmode comps rs clock).aborted = false →
      ∀ c ∈ comps,
        ∃ v, getRecord (executeLoop envs strategies venabled vmode comps rs
              clock).records c.id = some v ∧
          (v.status = "completed" ∨ v.status = "failed") := by
  intro comps
  induction comps with
  | nil => intro rs clock _ _ c hc; simp at hc
  | cons d rest ih =>
    intro rs clock hnd habort c hc
    simp only [List.map_cons, List.nodup_cons] at hnd
    cases hg : getRecord rs d.id with
    | none =>
      rw [executeLoop_cons_none hg] at habort
      simp at habort
    | some row =>
      by_cases hab : (executeComponent d (envs d.id) (strategies d.id) venabled vmode
          row clock).1.aborted = true
      · rw [executeLoop_cons_abort hg hab] at habort
        simp at habort
      · have hab' := Bool.not_eq_true _ ▸ hab
        rw [executeLoop_cons_cont hg hab'] at habort ⊢
        rcases List.mem_cons.mp hc with hcd | hcr
        · subst hcd
          have hnm : c.id ∉ (executeLoop envs strategies venabled vmode rest
              (setRecord rs c.id (executeComponent c (envs c.id) (strategies c.id)
                venabled vmode row clock).1.record)
              (executeComponent c (envs c.id) (strategies c.id) venabled vmode
                row clock).2).attempted := by
            intro hmem
            exact hnd.1 (executeLoop_attempted_subset envs strategies venabled vmode
              rest _ _ _ hmem)
          rw [executeLoop_untouched envs strategies venabled vmode rest _ _ _ hnm]
          refine ⟨(executeComponent c (envs c.id) (strategies c.id) venabled vmode
            row clock).1.record, getRecord_setRecord_self rs c.id _ row hg, ?_⟩
          exact executeComponent_status_terminal c (envs c.id) (strategies c.id)
            venabled vmode row clock
        · exact ih _ _ hnd.2 habort c hcr

theorem initComponentStatuses_keys (comps : List Component) :
    (initComponentStatuses comps).map (fun p => p.1) = comps.map Component.id := by
  induction comps with
  | nil => rfl
  | cons c t ih => simp [initComponentStatuses, ih]

/-- Claim C5: in a run where validation is not binding (`validation_mode`
is not `required`, or `validation_enabled` is false), if the component at
position `k` fails on every attempt (exhausting its retries and reaching
status `failed`), every component of the run — in particular every
component after position `k` — is still attempted, and `execute` returns
`partially_completed` (the final status is `completed` exactly when every
initialized record is `completed`, and the failed record rules that out). -/
theorem optional_validation_continues (comps : List Component)
    (envs : Nat → Nat → Env) (strategies : Nat → Option RetryStrategy)
    (venabled : Bool) (vmode : String)
    (hids : (comps.map Component.id).Nodup)
    (hnr : (venabled && vmode == "required") = false)
    (k : Nat) (hk : k < comps.length)
    (herr : ∀ i, isErr (dispatchComponent (comps.get ⟨k, hk⟩)
      (envs (comps.get ⟨k, hk⟩).id i)).2 = true) :
    (execute comps envs strategies venabled vmode).status = "partially_completed" ∧
    ∀ (j : Nat) (hj : j < comps.length),
      (comps.get ⟨j, hj⟩).id ∈ (execute comps envs strategies venabled vmode).attempted := by
  have hpres : ∀ c ∈ comps, getRecord (initComponentStatuses comps) c.id ≠ none := by
    intro c hc
    rw [getRecord_init comps c.id (List.mem_map.mpr ⟨c, hc, rfl⟩)]
    simp
  obtain ⟨habort, hatt⟩ := executeLoop_runs_all envs strategies venabled vmode hnr
    comps (initComponentStatuses comps) 0 hpres
  obtain ⟨v, hv, hvf⟩ := executeLoop_failed_at envs strategies venabled vmode hnr
    comps (initComponentStatuses comps) 0 hids hpres (comps.get ⟨k, hk⟩)
    (List.get_mem comps k hk) herr
  have hall : (executeLoop envs strategies venabled vmode comps
      (initComponentStatuses comps) 0).records.all
        (fun p => p.2.status == "completed") = false := by
    by_contra hcon
    have htrue : (executeLoop envs strategies venabled vmode comps
        (initComponentStatuses comps) 0).records.all
          (fun p => p.2.status == "completed") = true := by
      revert hcon
      cases (executeLoop envs strategies venabled vmode comps
        (initComponentStatuses comps) 0).records.all
          (fun p => p.2.status == "completed") <;> simp
    have hmem := mem_of_getRecord _ _ _ hv
    have := List.all_eq_true.mp htrue _ hmem
    rw [hvf] at this
    simp at this
  have hex : execute comps envs strategies venabled vmode
      = ⟨"partially_completed",
          (executeLoop envs strategies venabled vmode comps
            (initComponentStatuses comps) 0).records,
          (executeLoop envs strategies venabled vmode comps
            (initComponentStatuses comps) 0).attempted⟩ := by
    simp [execute, habort, hall]
  rw [hex]
  refine ⟨rfl, ?_⟩
  intro j hj
  simp only [hatt]
  exact List.mem_map.mpr ⟨comps.get ⟨j, hj⟩, List.get_mem comps j hj, rfl⟩

/-- Witness for `optional_validation_continues`: a concrete two-component
optional-mode run whose first component always fails still attempts the
second component and ends `partially_completed`. -/
theorem optional_validation_continues_witness :
    (execute [compKafka1, compMq2] (envsFailOnly 1) (fun _ => none)
      true "optional").status = "partially_completed" ∧
    ([compKafka1, compMq2].get ⟨1, by decide⟩).id
      ∈ (execute [compKafka1, compMq2] (envsFailOnly 1) (fun _ => none)
          true "optional").attempted := by
  have h := optional_validation_continues [compKafka1, compMq2] (envsFailOnly 1)
    (fun _ => none) true "optional" (by decide) (by decide) 0 (by decide)
    (fun i => rfl)
  exact ⟨h.1, h.2 1 (by decide)⟩

/-- Claim C6 (amended): if `execute` returns `completed` or
`partially_completed` (a normal loop exit), every initialized component
record has reached a terminal per-component status (`completed` or
`failed`).  The unrestricted claimed invariant is false: on the
validation-required abort path the run is terminal `failed` while later
components' records are still `pending` (see the counterexample). -/
theorem terminal_status_of_normal_exit (comps : List Component)
    (envs : Nat → Nat → Env) (strategies : Nat → Option RetryStrategy)
    (venabled : Bool) (vmode : String)
    (hids : (comps.map Component.id).Nodup)
    (h : (execute comps envs strategies venabled vmode).status = "completed" ∨
      (execute comps envs strategies venabled vmode).status = "partially_completed") :
    ∀ p ∈ (execute comps envs strategies venabled vmode).records,
      p.2.status = "completed" ∨ p.2.status = "failed" := by
  intro p hp
  by_cases habort : (executeLoop envs strategies venabled vmode comps
      (initComponentStatuses comps) 0).aborted = true
  · have hex : execute comps envs strategies venabled vmode
        = ⟨"failed",
            (executeLoop envs strategies venabled vmode comps
              (initComponentStatuses comps) 0).records,
            (executeLoop envs strategies venabled vmode comps
              (initComponentStatuses comps) 0).attempted⟩ := by
      simp [execute, habort]
    rw [hex] at h
    rcases h with h | h <;> simp at h
  · have habort' := Bool.not_eq_true _ ▸ habort
    have hrec : (execute comps envs strategies venabled vmode).records
        = (executeLoop envs strategies venabled vmode comps
            (initComponentStatuses comps) 0).records := by
      simp only [execute, habort', Bool.false_eq_true, if_false]
      split <;> rfl
    rw [hrec] at hp
    have hkeys : (executeLoop envs strategies venabled vmode comps
        (initComponentStatuses comps) 0).records.map (fun q => q.1)
          = comps.map Component.id := by
      rw [executeLoop_keys, initComponentStatuses_keys]
    have hid : p.1 ∈ comps.map Component.id := by
      rw [← hkeys]
      exact List.mem_map.mpr ⟨p, hp, rfl⟩
    obtain ⟨c, hc, hcid⟩ := List.mem_map.mp hid
    obtain ⟨v, hv, hterm⟩ := executeLoop_terminal envs strategies venabled vmode
      comps (initComponentStatuses comps) 0 hids habort' c hc
    have hnd' : ((executeLoop envs strategies venabled vmode comps
        (initComponentStatuses comps) 0).records.map (fun q => q.1)).Nodup := by
      rw [hkeys]; exact hids
    have hpv := getRecord_of_mem_nodup _ p hnd' hp
    rw [← hcid] at hpv
    rw [hv] at hpv
    have : p.2 = v := by injection hpv.symm
    rw [this]
    exact hterm

/-- Witness for `terminal_status_of_normal_exit`: a concrete all-successful
run ends `completed` and the record of the first component is terminal. -/
theorem terminal_status_of_normal_exit_witness :
    ((1 : Nat), doneRecord).2.status = "completed" ∨
    ((1 : Nat), doneRecord).2.status = "failed" :=
  terminal_status_of_normal_exit [compKafka1, compMq2] (fun _ _ => envAllOk)
    (fun _ => none) true "required" (by decide) (Or.inl (by decide))
    ((1 : Nat), doneRecord) (by decide)

/-! Helper lemmas about the sub-run status initialization. -/

theorem getRecord_append_right (rs : List (Nat × ComponentExecutionStatus))
    (cid : Nat) (v : ComponentExecutionStatus) (h : getRecord rs cid = none) :
    getRecord (rs ++ [(cid, v)]) cid = some v := by
  induction rs with
  | nil => simp [getRecord]
  | cons p t ih =>
    by_cases hpc : p.1 = cid
    · simp [getRecord, hpc] at h
    · simp only [getRecord, beq_iff_eq, hpc, if_false] at h
      simpa [getRecord, hpc] using ih h

theorem getRecord_append_ne (rs : List (Nat × ComponentExecutionStatus))
    (cid cid' : Nat) (v : ComponentExecutionStatus) (h : cid' ≠ cid) :
    getRecord (rs ++ [(cid, v)]) cid' = getRecord rs cid' := by
  induction rs with
  | nil => simp [getRecord, Ne.symm h]
  | cons p t ih =>
    by_cases hpc : p.1 = cid'
    · simp [getRecord, hpc]
    · simpa [getRecord, hpc] using ih

theorem subInit_ne :
    ∀ (sel : List Component) (parent : List (Nat × ComponentExecutionStatus))
      (cid : Nat), cid ∉ sel.map Component.id →
      getRecord (subInitStatuses parent sel) cid = getRecord parent cid := by
  intro sel
  induction sel with
  | nil => intro parent cid _; rfl
  | cons c t ih =>
    intro parent cid h
    simp only [List.map_cons, List.mem_cons, not_or] at h
    show getRecord (subInitStatuses _ t) cid = _
    rw [ih _ _ h.2]
    cases hg : getRecord parent c.id with
    | some w => simp only [hg]; exact getRecord_setRecord_ne _ _ _ _ h.1
    | none => simp only [hg]; exact getRecord_append_ne _ _ _ _ h.1

theorem subInit_mem :
    ∀ (sel : List Component) (parent : List (Nat × ComponentExecutionStatus))
      (c : Component), (sel.map Component.id).Nodup → c ∈ sel →
      getRecord (subInitStatuses parent sel) c.id = some freshStatus := by
  intro sel
  induction sel with
  | nil => intro parent c _ hc; simp at hc
  | cons d t ih =>
    intro parent c hnd hc
    simp only [List.map_cons, List.nodup_cons] at hnd
    rcases List.mem_cons.mp hc with hcd | hct
    · subst hcd
      show getRecord (subInitStatuses _ t) c.id = _
      rw [subInit_ne t _ c.id hnd.1]
      cases hg : getRecord parent c.id with
      | some w => simp only [hg]; exact getRecord_setRecord_self _ _ _ _ hg
      | none => simp only [hg]; exact getRecord_append_right _ _ _ hg
    · exact ih _ c hnd.2 hct

theorem subExecute_records (allComps : List Component) (startC endC : Component)
    (includeStart includeEnd : Bool)
    (parent : List (Nat × ComponentExecutionStatus)) (envs : Nat → Nat → Env)
    (strategies : Nat → Option RetryStrategy) (venabled : Bool) (vmode : String) :
    (subExecute allComps startC endC includeStart includeEnd parent envs strategies
        venabled vmode).records
      = (executeLoop envs strategies venabled vmode
          (getComponentsInPath allComps startC endC includeStart includeEnd)
          (subInitStatuses parent
            (getComponentsInPath allComps startC endC includeStart includeEnd))
          0).records := by
  simp only [subExecute]
  split
  · rfl
  · split <;> rfl

theorem subExecute_attempted (allComps : List Component) (startC endC : Component)
    (includeStart includeEnd : Bool)
    (parent : List (Nat × ComponentExecutionStatus)) (envs : Nat → Nat → Env)
    (strategies : Nat → Option RetryStrategy) (venabled : Bool) (vmode : String) :
    (subExecute allComps startC endC includeStart includeEnd parent envs strategies
        venabled vmode).attempted
      = (executeLoop envs strategies venabled vmode
          (getComponentsInPath allComps startC endC includeStart includeEnd)
          (subInitStatuses parent
            (getComponentsInPath allComps startC endC includeStart includeEnd))
          0).attempted := by
  simp only [subExecute]
  split
  · rfl
  · split <;> rfl

/-- Claim C9: a sub-run with a parent over the window (start order 2, end
order 4, include_start, not include_end) selects exactly the components
with order in [2,4); those components' records are reset to the pristine
pending record by initialization; only selected components are ever
attempted; and the parent's record of every component outside the window is
left unchanged by the whole sub-run. -/
theorem sub_run_window_frame (allComps : List Component) (startC endC : Component)
    (parent : List (Nat × ComponentExecutionStatus)) (envs : Nat → Nat → Env)
    (strategies : Nat → Option RetryStrategy) (venabled : Bool) (vmode : String)
    (hids : (allComps.map Component.id).Nodup)
    (hs : startC.order = 2) (he : endC.order = 4) :
    getComponentsInPath allComps startC endC true false
      = allComps.filter (fun c => decide (2 ≤ c.order) && decide (c.order < 4)) ∧
    (∀ c ∈ allComps, 2 ≤ c.order → c.order < 4 →
      getRecord (subInitStatuses parent
          (getComponentsInPath allComps startC endC true false)) c.id
        = some freshStatus) ∧
    (∀ c ∈ allComps, ¬(2 ≤ c.order ∧ c.order < 4) →
      getRecord (subExecute allComps startC endC true false parent envs strategies
          venabled vmode).records c.id = getRecord parent c.id) ∧
    (∀ cid ∈ (subExecute allComps startC endC true false parent envs strategies
        venabled vmode).attempted,
      cid ∈ (getComponentsInPath allComps startC endC true false).map
        Component.id) := by
  have hno : ¬(startC.order > endC.order) := by omega
  have hsel : getComponentsInPath allComps startC endC true false
      = allComps.filter (fun c => decide (2 ≤ c.order) && decide (c.order < 4)) := by
    simp [getComponentsInPath, rangeSelect, hno, hs, he]
  have hselnd : ((getComponentsInPath allComps startC endC true false).map
      Component.id).Nodup := by
    rw [hsel]
    exact List.Nodup.sublist (List.Sublist.map _ (List.filter_sublist _)) hids
  have hnotin : ∀ c ∈ allComps, ¬(2 ≤ c.order ∧ c.order < 4) →
      c.id ∉ (getComponentsInPath allComps startC endC true false).map
        Component.id := by
    intro c hc hcw hmem
    obtain ⟨d, hd, hdid⟩ := List.mem_map.mp hmem
    rw [hsel] at hd
    obtain ⟨hdall, hdw⟩ := List.mem_filter.mp hd
    have hdc : d = c := List.inj_on_of_nodup_map hids hdall hc hdid
    subst hdc
    simp only [Bool.and_eq_true, decide_eq_true_eq] at hdw
    exact hcw hdw
  refine ⟨hsel, ?_, ?_, ?_⟩
  · intro c hc h2 h4
    apply subInit_mem _ _ _ hselnd
    rw [hsel]
    refine List.mem_filter.mpr ⟨hc, ?_⟩
    simp [h2, h4]
  · intro c hc hcw
    rw [subExecute_records]
    have hnm : c.id ∉ (executeLoop envs strategies venabled vmode
        (getComponentsInPath allComps startC endC true false)
        (subInitStatuses parent
          (getComponentsInPath allComps startC endC true false)) 0).attempted := by
      intro hmem
      exact hnotin c hc hcw
        (executeLoop_attempted_subset envs strategies venabled vmode _ _ _ _ hmem)
    rw [executeLoop_untouched envs strategies venabled vmode _ _ _ _ hnm]
    exact subInit_ne _ _ _ (hnotin c hc hcw)
  · intro cid hmem
    rw [subExecute_attempted] at hmem
    exact executeLoop_attempted_subset envs strategies venabled vmode _ _ _ _ hmem

/-- Witness for `sub_run_window_frame` on a concrete four-component
workflow: the window [2,4) selects the components with orders 2 and 3, and
the sub-run leaves the parent's record of the order-1 component unchanged. -/
theorem sub_run_window_frame_witness :
    getComponentsInPath [wComp 1, wComp 2, wComp 3, wComp 4] (wComp 2) (wComp 4)
        true false = [wComp 2, wComp 3] ∧
    getRecord (subExecute [wComp 1, wComp 2, wComp 3, wComp 4] (wComp 2) (wComp 4)
        true false (initComponentStatuses [wComp 1, wComp 2, wComp 3, wComp 4])
        (fun _ _ => envAllOk) (fun _ => none) true "required").records (wComp 1).id
      = getRecord (initComponentStatuses [wComp 1, wComp 2, wComp 3, wComp 4])
          (wComp 1).id := by
  have h := sub_run_window_frame [wComp 1, wComp 2, wComp 3, wComp 4]
    (wComp 2) (wComp 4) (initComponentStatuses [wComp 1, wComp 2, wComp 3, wComp 4])
    (fun _ _ => envAllOk) (fun _ => none) true "required"
    (by decide) (by decide) (by decide)
  refine ⟨?_, h.2.2.1 (wComp 1) (by decide) (by decide)⟩
  rw [h.1]
  decide

/-! Helper lemmas for the range selector: the filter of an order-sorted
list by an order-interval predicate is a contiguous chunk of the list. -/

theorem filter_eq_takeWhile_of_lead {α : Type} (P : α → Bool) (key : α → Nat)
    (hconv : ∀ x y z, key x ≤ key y → key y ≤ key z → P x = true → P z = true →
      P y = true) :
    ∀ (x : α) (l : List α), P x = true → (∀ y ∈ l, key x ≤ key y) →
      l.Pairwise (fun a b => key a ≤ key b) → l.filter P = l.takeWhile P := by
  intro x l
  induction l generalizing x with
  | nil => intro _ _ _; rfl
  | cons y ys ih =>
    intro hPx hlo hpw
    rw [List.pairwise_cons] at hpw
    cases hy : P y with
    | true =>
      rw [List.filter_cons_of_pos hy, List.takeWhile_cons_of_pos hy]
      rw [ih y hy hpw.1 hpw.2]
    | false =>
      have hnil : List.filter P ys = [] := by
        rw [List.filter_eq_nil_iff]
        intro z hz hPz
        have hcontra := hconv x y z (hlo y (List.mem_cons_self y ys))
          (hpw.1 z hz) hPx hPz
        rw [hy] at hcontra
        exact Bool.false_ne_true hcontra
      rw [List.filter_cons_of_neg (by simp [hy]),
        List.takeWhile_cons_of_neg (by simp [hy]), hnil]

theorem filter_chunk_of_convex {α : Type} (P : α → Bool) (key : α → Nat)
    (hconv : ∀ x y z, key x ≤ key y → key y ≤ key z → P x = true → P z = true →
      P y = true) :
    ∀ (l : List α), l.Pairwise (fun a b => key a ≤ key b) →
      ∃ pre post, l = pre ++ l.filter P ++ post := by
  intro l
  induction l with
  | nil => exact fun _ => ⟨[], [], rfl⟩
  | cons x xs ih =>
    intro hpw
    rw [List.pairwise_cons] at hpw
    cases hx : P x with
    | false =>
      obtain ⟨pre, post, heq⟩ := ih hpw.2
      refine ⟨x :: pre, post, ?_⟩
      rw [List.filter_cons_of_neg (by simp [hx])]
      exact congrArg (List.cons x) heq
    | true =>
      refine ⟨[], xs.dropWhile P, ?_⟩
      rw [List.filter_cons_of_pos hx]
      rw [filter_eq_takeWhile_of_lead P key hconv x xs hx hpw.1 hpw.2]
      show x :: xs = x :: (xs.takeWhile P ++ xs.dropWhile P)
      rw [List.takeWhile_append_dropWhile]

theorem windowAllows_convex (s e : Nat) (incS incE : Bool) :
    ∀ a b c' : Nat, a ≤ b → b ≤ c' → windowAllows s e incS incE a = true →
      windowAllows s e incS incE c' = true → windowAllows s e incS incE b = true := by
  intro a b c' hab hbc ha hc
  cases incS <;> cases incE <;> simp [windowAllows] at * <;> omega

/-- Claim C4 (amended): for every ascending component list and normalized
window, the Range Selector's output equals filtering the full list by the
order comparison chosen by the include flags, and is therefore a contiguous
chunk of the full ordered list; it is empty exactly when no component of
the list has an order the bounds admit (the original claim's "empty only
when the bounds admit no order values" fails: the bounds may admit order
values held by no component, see the counterexample). -/
theorem range_filter_contiguous (allComps : List Component) (startC endC : Component)
    (incS incE : Bool)
    (hsorted : allComps.Pairwise (fun a b => a.order ≤ b.order))
    (hnorm : startC.order ≤ endC.order) :
    getComponentsInPath allComps startC endC incS incE
      = allComps.filter
          (fun c => windowAllows startC.order endC.order incS incE c.order) ∧
    (∃ pre post, allComps
      = pre ++ getComponentsInPath allComps startC endC incS incE ++ post) ∧
    (getComponentsInPath allComps startC endC incS incE = [] ↔
      ∀ c ∈ allComps,
        windowAllows startC.order endC.order incS incE c.order = false) := by
  have hno : ¬(startC.order > endC.order) := by omega
  have hfil : getComponentsInPath allComps startC endC incS incE
      = allComps.filter
          (fun c => windowAllows startC.order endC.order incS incE c.order) := by
    cases incS <;> cases incE <;>
      simp [getComponentsInPath, rangeSelect, hno, windowAllows]
  refine ⟨hfil, ?_, ?_⟩
  · rw [hfil]
    exact filter_chunk_of_convex _ Component.order
      (fun x y z hxy hyz hx hz =>
        windowAllows_convex startC.order endC.order incS incE
          x.order y.order z.order hxy hyz hx hz)
      allComps hsorted
  · rw [hfil, List.filter_eq_nil_iff]
    simp only [Bool.not_eq_true]

/-- Witness for `range_filter_contiguous` on a concrete ascending list with
the both-inclusive normalized window [0, 5]. -/
theorem range_filter_contiguous_witness :
    getComponentsInPath [compOrd0, compOrd5] compOrd0 compOrd5 true true
      = [compOrd0, compOrd5].filter
          (fun c => windowAllows compOrd0.order compOrd5.order true true c.order) :=
  (range_filter_contiguous [compOrd0, compOrd5] compOrd0 compOrd5 true true
    (by decide) (by decide)).1

/-! Helper lemmas for the Kafka replay. -/

theorem pyLimitHit_some (l c : Nat) (hl : 0 < l) :
    pyLimitHit (some l) c = decide (l ≤ c) := by
  cases l with
  | zero => omega
  | succ n => rfl

theorem replayBatch_flush {α : Type} (target : String) (ff : Option (α → Bool))
    (tf : Option (α → α)) (limit : Option Nat) :
    ∀ (batch : List (KRecord α)) (count : Nat),
      (replayBatch target ff tf limit batch count).2.2 = true →
      ∃ evs, (replayBatch target ff tf limit batch count).2.1
        = evs ++ [ReplayEvent.flush] := by
  intro batch
  induction batch with
  | nil => intro count h; simp [replayBatch] at h
  | cons r rest ih =>
    intro count h
    by_cases hskip : skipRecord ff r.value = true
    · rw [show replayBatch target ff tf limit (r :: rest) count
          = replayBatch target ff tf limit rest count by
        simp [replayBatch, hskip]] at h ⊢
      exact ih count h
    · have hskip' := Bool.not_eq_true _ ▸ hskip
      by_cases hhit : pyLimitHit limit (count + 1) = true
      · refine ⟨[ReplayEvent.send target (applyTransform tf r.value)], ?_⟩
        simp [replayBatch, hskip', hhit]
      · have hhit' := Bool.not_eq_true _ ▸ hhit
        rw [show replayBatch target ff tf limit (r :: rest) count
            = ((replayBatch target ff tf limit rest (count + 1)).1,
                ReplayEvent.send target (applyTransform tf r.value)
                  :: (replayBatch target ff tf limit rest (count + 1)).2.1,
                (replayBatch target ff tf limit rest (count + 1)).2.2) by
          simp [replayBatch, hskip', hhit']] at h ⊢
        obtain ⟨evs, hevs⟩ := ih (count + 1) h
        exact ⟨ReplayEvent.send target (applyTransform tf r.value) :: evs,
          by simp [hevs]⟩

theorem replayLoop_flush {α : Type} (target : String) (ff : Option (α → Bool))
    (tf : Option (α → α)) (limit : Option Nat) :
    ∀ (polls : List (List (KRecord α))) (count : Nat),
      ∃ evs, (replayLoop target ff tf limit polls count).2.1
        = evs ++ [ReplayEvent.flush] := by
  intro polls
  induction polls with
  | nil => intro count; exact ⟨[], rfl⟩
  | cons batch rest ih =>
    intro count
    by_cases hbe : batch.isEmpty = true
    · exact ⟨[ReplayEvent.poll 0], by simp [replayLoop, hbe]⟩
    · have hbe' := Bool.not_eq_true _ ▸ hbe
      by_cases hhit : (replayBatch target ff tf limit batch count).2.2 = true
      · obtain ⟨evs, hevs⟩ := replayBatch_flush target ff tf limit batch count hhit
        refine ⟨ReplayEvent.poll batch.length :: evs, ?_⟩
        simp [replayLoop, hbe', hhit, hevs]
      · have hhit' := Bool.not_eq_true _ ▸ hhit
        obtain ⟨evs, hevs⟩ := ih (replayBatch target ff tf limit batch count).1
        refine ⟨ReplayEvent.poll batch.length
          :: (replayBatch target ff tf limit batch count).2.1 ++ evs, ?_⟩
        simp [replayLoop, hbe', hhit', hevs]

theorem replayBatch_count {α : Type} (target : String) (ff : Option (α → Bool))
    (tf : Option (α → α)) (l : Nat) (hl : 0 < l) :
    ∀ (batch : List (KRecord α)) (count : Nat), count < l →
      ((replayBatch target ff tf (some l) batch count).2.2 = true →
        (replayBatch target ff tf (some l) batch count).1 = l) ∧
      ((replayBatch target ff tf (some l) batch count).2.2 = false →
        (replayBatch target ff tf (some l) batch count).1 < l) := by
  intro batch
  induction batch with
  | nil =>
    intro count hc
    refine ⟨fun h => ?_, fun _ => hc⟩
    simp [replayBatch] at h
  | cons r rest ih =>
    intro count hc
    by_cases hskip : skipRecord ff r.value = true
    · rw [show replayBatch target ff tf (some l) (r :: rest) count
          = replayBatch target ff tf (some l) rest count by
        simp [replayBatch, hskip]]
      exact ih count hc
    · have hskip' := Bool.not_eq_true _ ▸ hskip
      by_cases hhit : l ≤ count + 1
      · have hone : replayBatch target ff tf (some l) (r :: rest) count
            = (count + 1,
                [ReplayEvent.send target (applyTransform tf r.value),
                  ReplayEvent.flush], true) := by
          simp [replayBatch, hskip', pyLimitHit_some l (count + 1) hl, hhit]
        rw [hone]
        exact ⟨fun _ => by omega, fun h => by simp at h⟩
      · have hlt : count + 1 < l := by omega
        have hcont : replayBatch target ff tf (some l) (r :: rest) count
            = ((replayBatch target ff tf (some l) rest (count + 1)).1,
                ReplayEvent.send target (applyTransform tf r.value)
                  :: (replayBatch target ff tf (some l) rest (count + 1)).2.1,
                (replayBatch target ff tf (some l) rest (count + 1)).2.2) := by
          simp [replayBatch, hskip', pyLimitHit_some l (count + 1) hl, hhit]
        rw [hcont]
        exact ih (count + 1) hlt

theorem replayLoop_count {α : Type} (target : String) (ff : Option (α → Bool))
    (tf : Option (α → α)) (l : Nat) (hl : 0 < l) :
    ∀ (polls : List (List (KRecord α))) (count : Nat), count < l →
      (replayLoop target ff tf (some l) polls count).1 ≤ l ∧
      ((replayLoop target ff tf (some l) polls count).2.2 = StopReason.limitReached →
        (replayLoop target ff tf (some l) polls count).1 = l) := by
  intro polls
  induction polls with
  | nil =>
    intro count hc
    exact ⟨by simpa [replayLoop] using Nat.le_of_lt hc, fun h => by simp [replayLoop] at h⟩
  | cons batch rest ih =>
    intro count hc
    by_cases hbe : batch.isEmpty = true
    · rw [show replayLoop target ff tf (some l) (batch :: rest) count
          = (count, [ReplayEvent.poll 0, ReplayEvent.flush], StopReason.emptyPoll) by
        simp [replayLoop, hbe]]
      exact ⟨Nat.le_of_lt hc, fun h => by simp at h⟩
    · have hbe' := Bool.not_eq_true _ ▸ hbe
      obtain ⟨hbt, hbf⟩ := replayBatch_count target ff tf l hl batch count hc
      by_cases hhit : (replayBatch target ff tf (some l) batch count).2.2 = true
      · rw [show replayLoop target ff tf (some l) (batch :: rest) count
            = ((replayBatch target ff tf (some l) batch count).1,
                ReplayEvent.poll batch.length
                  :: (replayBatch target ff tf (some l) batch count).2.1,
                StopReason.limitReached) by
          simp [replayLoop, hbe', hhit]]
        exact ⟨by rw [hbt hhit], fun _ => hbt hhit⟩
      · have hhit' := Bool.not_eq_true _ ▸ hhit
        have hlt := hbf hhit'
        rw [show replayLoop target ff tf (some l) (batch :: rest) count
            = ((replayLoop target ff tf (some l) rest
                  (replayBatch target ff tf (some l) batch count).1).1,
                ReplayEvent.poll batch.length
                  :: (replayBatch target ff tf (some l) batch count).2.1
                  ++ (replayLoop target ff tf (some l) rest
                      (replayBatch target ff tf (some l) batch count).1).2.1,
                (replayLoop target ff tf (some l) rest
                  (replayBatch target ff tf (some l) batch count).1).2.2) by
          simp [replayLoop, hbe', hhit']]
        exact ih _ hlt

theorem replayLoop_reason {α : Type} (target : String) (ff : Option (α → Bool))
    (tf : Option (α → α)) (limit : Option Nat) :
    ∀ (polls : List (List (KRecord α))) (count : Nat), [] ∈ polls →
      (replayLoop target ff tf limit polls count).2.2 = StopReason.emptyPoll ∨
      (replayLoop target ff tf limit polls count).2.2 = StopReason.limitReached := by
  intro polls
  induction polls with
  | nil => intro count h; simp at h
  | cons batch rest ih =>
    intro count h
    by_cases hbe : batch.isEmpty = true
    · left
      simp [replayLoop, hbe]
    · have hbe' := Bool.not_eq_true _ ▸ hbe
      have hmem : ([] : List (KRecord α)) ∈ rest := by
        rcases List.mem_cons.mp h with he | hm
        · rw [← he] at hbe; simp at hbe
        · exact hm
      by_cases hhit : (replayBatch target ff tf limit batch count).2.2 = true
      · right
        simp [replayLoop, hbe', hhit]
      · have hhit' := Bool.not_eq_true _ ▸ hhit
        rw [show (replayLoop target ff tf limit (batch :: rest) count).2.2
            = (replayLoop target ff tf limit rest
                (replayBatch target ff tf limit batch count).1).2.2 by
          simp [replayLoop, hbe', hhit']]
        exact ih _ hmem

/-- Claim C8 (amended): for a connected connector and a poll sequence that
eventually returns an empty poll, `replay_topic_to_topic` subscribes and
resets the consumer to the beginning before any poll, always flushes the
producer as its last action before returning, stops only because of an
empty poll or because the count reached a positive limit, and — when the
given limit is positive — returns a count that never exceeds it and equals
it whenever the limit was the stop reason.  (For the given limit 0 the
Python truthiness of `limit and count >= limit` disables the limit check
entirely, see the counterexample.) -/
theorem replay_contract {α : Type} (source target : String)
    (filterF : Option (α → Bool)) (transformF : Option (α → α))
    (limit : Option Nat) (polls : List (List (KRecord α)))
    (hpoll : [] ∈ polls) :
    (∃ t, (replayTopicToTopic true source target filterF transformF limit
        polls).events
      = ReplayEvent.subscribe source :: ReplayEvent.seekToBeginning :: t) ∧
    (∃ evs, (replayTopicToTopic true source target filterF transformF limit
        polls).events = evs ++ [ReplayEvent.flush]) ∧
    ((replayTopicToTopic true source target filterF transformF limit polls).reason
        = StopReason.emptyPoll ∨
      (replayTopicToTopic true source target filterF transformF limit polls).reason
        = StopReason.limitReached) ∧
    (∀ l, limit = some l → 0 < l →
      (replayTopicToTopic true source target filterF transformF limit polls).count
          ≤ l ∧
      ((replayTopicToTopic true source target filterF transformF limit
          polls).reason = StopReason.limitReached →
        (replayTopicToTopic true source target filterF transformF limit
          polls).count = l)) := by
  have hrw : replayTopicToTopic true source target filterF transformF limit polls
      = ⟨(replayLoop target filterF transformF limit polls 0).1,
          ReplayEvent.subscribe source :: ReplayEvent.seekToBeginning
            :: (replayLoop target filterF transformF limit polls 0).2.1,
          (replayLoop target filterF transformF limit polls 0).2.2⟩ := by
    simp [replayTopicToTopic]
  rw [hrw]
  refine ⟨⟨(replayLoop target filterF transformF limit polls 0).2.1, rfl⟩, ?_, ?_, ?_⟩
  · obtain ⟨evs, hevs⟩ := replayLoop_flush target filterF transformF limit polls 0
    exact ⟨ReplayEvent.subscribe source :: ReplayEvent.seekToBeginning :: evs,
      by simp [hevs]⟩
  · exact replayLoop_reason target filterF transformF limit polls 0 hpoll
  · intro l hle hl
    subst hle
    exact replayLoop_count target filterF transformF l hl polls 0 hl

/-- Witness for `replay_contract`: one non-empty poll followed by an empty
poll, limit 2: the replayed count stays within the limit and the loop stops
at the empty poll or at the limit. -/
theorem replay_contract_witness :
    (replayTopicToTopic (α := Nat) true "s" "t" none none (some 2)
      [[⟨none, 7⟩], []]).count ≤ 2 ∧
    ((replayTopicToTopic (α := Nat) true "s" "t" none none (some 2)
        [[⟨none, 7⟩], []]).reason = StopReason.emptyPoll ∨
      (replayTopicToTopic (α := Nat) true "s" "t" none none (some 2)
        [[⟨none, 7⟩], []]).reason = StopReason.limitReached) := by
  have h := replay_contract (α := Nat) "s" "t" none none (some 2)
    [[⟨none, 7⟩], []] (by decide)
  exact ⟨(h.2.2.2 2 rfl (by omega)).1, h.2.2.1⟩

/-- Witness for `unknown_type_completes` at a concrete component of type
`custom`. -/
theorem unknown_type_completes_witness :
    dispatchComponent compUntyped ((fun _ => envAllOk) 0) = ([], .ok ()) ∧
    (executeComponent compUntyped (fun _ => envAllOk) none true "required"
      freshStatus 0).1.record.status = "completed" ∧
    (executeComponent compUntyped (fun _ => envAllOk) none true "required"
      freshStatus 0).1.attempts = 1 ∧
    (executeComponent compUntyped (fun _ => envAllOk) none true "required"
      freshStatus 0).1.calls = [] ∧
    (executeComponent compUntyped (fun _ => envAllOk) none true "required"
      freshStatus 0).1.sleeps = [] ∧
    (executeComponent compUntyped (fun _ => envAllOk) none true "required"
      freshStatus 0).1.aborted = false :=
  unknown_type_completes compUntyped (fun _ => envAllOk) none true "required"
    freshStatus 0 (by decide)

end Tracemyflow
